import Mathlib

/-!
Verification of the `@momsfriendlydevco/agents` orchestration kernel.

This file gives a shallow embedding of the core module (`index.js` of the
package, provided as `src/unnamed/part_010`), of the inline runner
(`src/runners/inline.js`) and of the PM2 runner's post-mortem log analysis
(`src/runners/pm2.js`), and proves properties of cache-key derivation,
request coalescing, the orchestrator facade and the runners against it.

Modelling conventions:
* JavaScript values living in settings objects and caches are modelled by
  the inductive type `JsVal`; numbers are integers (no property exercised
  here involves fractional values).
* JavaScript objects are association lists with (by the JS object
  invariant) pairwise distinct keys; `wfNodup` states that invariant.
* Promises are modelled by defer cells (`DeferState`) held in the
  orchestrator state and addressed by numeric ids; the `setTimeout` body
  scheduled by `agents.run` is modelled as a queued task whose eventual
  execution is the `taskComplete` step, with the runner's outcome supplied
  as a parameter (the worker body itself is an external collaborator).
* External libraries (`crypto`'s sha256, the `timestring` parser, the JS
  `Date` parser, the configurable `keyRewrite` / runner / cache hooks) are
  parameters of the model.
-/

set_option maxHeartbeats 1000000

namespace AgentsModel

/-- JSON-like JavaScript values: the values stored in agent settings
objects and cache entries. -/
inductive JsVal where
  | null
  | bool (b : Bool)
  | num (n : Int)
  | str (s : String)
  | arr (elems : List JsVal)
  | obj (fields : List (String × JsVal))

/-- JavaScript truthiness of a `JsVal` (`undefined` is represented by
`Option.none` at use sites, never by a `JsVal`). -/
def truthy : JsVal → Bool
  | .null => false
  | .bool b => b
  | .num n => n != 0
  | .str s => s != ""
  | .arr _ => true
  | .obj _ => true

/-- lodash `_.isObject`: arrays and plain objects are objects; `null`,
booleans, numbers and strings are not. -/
def isObjectVal : JsVal → Bool
  | .arr _ => true
  | .obj _ => true
  | _ => false

/-- lodash `_.keys`: own enumerable keys of a value (index strings for an
array, field names for an object, nothing for primitives). -/
def keysOf : JsVal → List String
  | .obj l => l.map Prod.fst
  | .arr xs => (List.range xs.length).map toString
  | _ => []

/-- Association-list lookup, modelling a JavaScript map/object access. -/
def alookup {κ : Type} [DecidableEq κ] {α : Type} (k : κ) : List (κ × α) → Option α
  | [] => none
  | p :: ps => if p.1 = k then some p.2 else alookup k ps

/-- JavaScript property assignment `S[k] = v` on an object with distinct
keys: replace the value in place if the key exists, else append. -/
def setKey (l : List (String × JsVal)) (k : String) (v : JsVal) : List (String × JsVal) :=
  if (l.map Prod.fst).contains k then
    l.map (fun p => if p.1 = k then (k, v) else p)
  else l ++ [(k, v)]

/-- JavaScript `delete S[k]` on an object with distinct keys. -/
def removeKey (l : List (String × JsVal)) (k : String) : List (String × JsVal) :=
  l.filter (fun p => p.1 != k)

/-- Lexicographic (code-unit) comparison of JavaScript strings, the order
in which `lodash-keyarrange` sorts object keys: non-strict version. -/
def charListLe : List Char → List Char → Bool
  | [], _ => true
  | _ :: _, [] => false
  | a :: as, b :: bs =>
    if a.toNat < b.toNat then true
    else if b.toNat < a.toNat then false
    else charListLe as bs

/-- Strict version of `charListLe`. -/
def charListLt : List Char → List Char → Bool
  | [], [] => false
  | [], _ :: _ => true
  | _ :: _, [] => false
  | a :: as, b :: bs =>
    if a.toNat < b.toNat then true
    else if b.toNat < a.toNat then false
    else charListLt as bs

/-- Ordering of object fields by key, used to model the alphabetical key
sort performed by `lodash-keyarrange`. -/
def pairLe (p q : String × JsVal) : Prop := charListLe p.1.toList q.1.toList = true

/-- Strict ordering of object fields by key. -/
def pairLt (p q : String × JsVal) : Prop := charListLt p.1.toList q.1.toList = true

instance : DecidableRel pairLe :=
  fun p q => inferInstanceAs (Decidable (charListLe p.1.toList q.1.toList = true))

instance : IsTotal (String × JsVal) pairLe := ⟨fun a b => by
  unfold pairLe
  generalize a.1.toList = xs
  generalize b.1.toList = ys
  induction xs generalizing ys with
  | nil => exact Or.inl rfl
  | cons x xs ih =>
    cases ys with
    | nil => exact Or.inr rfl
    | cons y ys =>
      simp only [charListLe]
      rcases Nat.lt_trichotomy x.toNat y.toNat with h | h | h
      · left
        simp [h]
      · have h1 : ¬ x.toNat < y.toNat := by omega
        have h2 : ¬ y.toNat < x.toNat := by omega
        rcases ih ys with hc | hc
        · left
          simp [h1, h2, hc]
        · right
          simp [h1, h2, hc]
      · right
        simp [h]⟩

instance : IsTrans (String × JsVal) pairLe := ⟨fun a b c hab hbc => by
  unfold pairLe at hab hbc ⊢
  revert hab hbc
  generalize a.1.toList = xs
  generalize b.1.toList = ys
  generalize c.1.toList = zs
  induction xs generalizing ys zs with
  | nil => intro _ _; rfl
  | cons x xs ih =>
    intro hab hbc
    cases ys with
    | nil => exact absurd hab (by simp [charListLe])
    | cons y ys =>
      cases zs with
      | nil => exact absurd hbc (by simp [charListLe])
      | cons z zs =>
        simp only [charListLe] at hab hbc ⊢
        rcases Nat.lt_trichotomy x.toNat y.toNat with h₁ | h₁ | h₁
        · rcases Nat.lt_trichotomy y.toNat z.toNat with h₂ | h₂ | h₂
          · simp [show x.toNat < z.toNat by omega]
          · simp [show x.toNat < z.toNat by omega]
          · rw [if_neg (show ¬ y.toNat < z.toNat by omega),
                if_pos (show z.toNat < y.toNat by omega)] at hbc
            exact absurd hbc (by simp)
        · rcases Nat.lt_trichotomy y.toNat z.toNat with h₂ | h₂ | h₂
          · simp [show x.toNat < z.toNat by omega]
          · rw [if_neg (show ¬ x.toNat < y.toNat by omega),
                if_neg (show ¬ y.toNat < x.toNat by omega)] at hab
            rw [if_neg (show ¬ y.toNat < z.toNat by omega),
                if_neg (show ¬ z.toNat < y.toNat by omega)] at hbc
            rw [if_neg (show ¬ x.toNat < z.toNat by omega),
                if_neg (show ¬ z.toNat < x.toNat by omega)]
            exact ih ys zs hab hbc
          · rw [if_neg (show ¬ y.toNat < z.toNat by omega),
                if_pos (show z.toNat < y.toNat by omega)] at hbc
            exact absurd hbc (by simp)
        · rw [if_neg (show ¬ x.toNat < y.toNat by omega),
              if_pos (show y.toNat < x.toNat by omega)] at hab
          exact absurd hab (by simp)⟩

instance : IsAntisymm (String × JsVal) pairLt := ⟨fun a b h₁ h₂ => by
  exfalso
  unfold pairLt at h₁ h₂
  revert h₁ h₂
  generalize a.1.toList = xs
  generalize b.1.toList = ys
  induction xs generalizing ys with
  | nil =>
    intro h₁ h₂
    cases ys with
    | nil => exact absurd h₁ (by simp [charListLt])
    | cons y ys => exact absurd h₂ (by simp [charListLt])
  | cons x xs ih =>
    intro h₁ h₂
    cases ys with
    | nil => exact absurd h₁ (by simp [charListLt])
    | cons y ys =>
      simp only [charListLt] at h₁ h₂
      rcases Nat.lt_trichotomy x.toNat y.toNat with h | h | h
      · rw [if_neg (show ¬ y.toNat < x.toNat by omega),
            if_pos (show x.toNat < y.toNat by omega)] at h₂
        exact absurd h₂ (by simp)
      · rw [if_neg (show ¬ x.toNat < y.toNat by omega),
            if_neg (show ¬ y.toNat < x.toNat by omega)] at h₁
        rw [if_neg (show ¬ y.toNat < x.toNat by omega),
            if_neg (show ¬ x.toNat < y.toNat by omega)] at h₂
        exact ih ys h₁ h₂
      · rw [if_neg (show ¬ x.toNat < y.toNat by omega),
            if_pos (show y.toNat < x.toNat by omega)] at h₁
        exact absurd h₁ (by simp)⟩

/-- Sort the fields of an object by key. -/
def sortPairs (l : List (String × JsVal)) : List (String × JsVal) :=
  List.insertionSort pairLe l

mutual

/-- `lodash-keyarrange`'s `keyArrangeDeep` (an external library used by
`agents.getKey`): recursively sort all object keys so that semantically
equal settings serialize identically. -/
def arrangeDeep : JsVal → JsVal
  | .null => .null
  | .bool b => .bool b
  | .num n => .num n
  | .str s => .str s
  | .arr xs => .arr (arrangeList xs)
  | .obj l => .obj (sortPairs (arrangePairs l))

/-- `arrangeDeep` mapped over the elements of an array. -/
def arrangeList : List JsVal → List JsVal
  | [] => []
  | v :: vs => arrangeDeep v :: arrangeList vs

/-- `arrangeDeep` mapped over the values of an object's fields. -/
def arrangePairs : List (String × JsVal) → List (String × JsVal)
  | [] => []
  | (k, v) :: ps => (k, arrangeDeep v) :: arrangePairs ps

end

/-- Escape a string for JSON output (quote and backslash). -/
def jsStringEscape (s : String) : String :=
  String.mk (s.toList.foldr
    (fun c acc => if c = '"' || c = '\\' then '\\' :: c :: acc else c :: acc) [])

mutual

/-- `JSON.stringify` over the `JsVal` model.  Its output feeds the (abstract)
sha256 hash, so only its functionality matters, not byte-exact escaping of
control characters. -/
def stringify : JsVal → String
  | .null => "null"
  | .bool true => "true"
  | .bool false => "false"
  | .num n => toString n
  | .str s => "\"" ++ jsStringEscape s ++ "\""
  | .arr xs => "[" ++ stringifyList xs ++ "]"
  | .obj l => "\x7b" ++ stringifyPairs l ++ "\x7d"

/-- Comma-joined serialization of array elements. -/
def stringifyList : List JsVal → String
  | [] => ""
  | [v] => stringify v
  | v :: vs => stringify v ++ "," ++ stringifyList vs

/-- Comma-joined serialization of object fields. -/
def stringifyPairs : List (String × JsVal) → String
  | [] => ""
  | [(k, v)] => "\"" ++ jsStringEscape k ++ "\":" ++ stringify v
  | (k, v) :: ps => "\"" ++ jsStringEscape k ++ "\":" ++ stringify v ++ "," ++ stringifyPairs ps

end

/-- An agent definition as registered in `agents._agents`
(`src/unnamed/part_010`): the worker body itself is an external
collaborator and is supplied separately when an execution completes.
`expires: false` (the default) is modelled as `none`. -/
structure AgentDef where
  id : String
  hasReturn : Bool
  expires : Option String := none
  immediate : Bool := false
  methods : List String
  timing : Option String := none

/-- A session record as built by `agents.createSession`.  The `context`
and `cacher` fields of the source are capability objects (closures over
the orchestrator) and are represented by the `cache` name; the one-shot
defer allocated by `createDefer` is represented by its id into the
orchestrator's defer store. -/
structure Session where
  agent : String
  agentSettings : List (String × JsVal)
  cacheKey : String
  runner : String
  cache : String
  worker : AgentDef
  deferId : Nat
  status : Option String := none
  result : Option JsVal := none

/-- The configuration surface of the orchestrator that the verified
operations consult: the `keyRewrite` hook, the `crypto` sha256 digest
(an external library, hence abstract), and the runner / cache selection
hooks `settings.runner.calculate` / `settings.cache.calculate`.  A falsy
return of a hook is modelled as `none`. -/
structure Config where
  keyRewrite : String → String
  sha256 : String → String
  runnerCalc : Session → Option String
  cacheCalc : Session → Option String

/-- The default `keyRewrite` hook of `agents.settings`: the identity. -/
def defaultKeyRewrite : String → String := fun key => key

/-- JS `key.startsWith('$')`: whether the first character is `$`. -/
def startsWithDollar (s : String) : Bool :=
  match s.toList with
  | c :: _ => c == '$'
  | [] => false

/-- The lodash `pickBy` predicate of `agents.getKey`: keep only the fields
whose key does not begin with `$`. -/
def hashKeep (p : String × JsVal) : Bool := !(startsWithDollar p.1)

/-- `agents.getKey` (`src/unnamed/part_010`): project the settings object
to the keys not beginning with `$`, deeply sort the keys
(`keyArrangeDeep`), then either return the bare id (empty projection) or
append the sha256 digest of the serialization; finally apply the
`keyRewrite` hook.  Since `settings` is an object, lodash `pickBy` returns
an object, so the `isString/isNumber/isBoolean` guard on the hash input in
the source is false and the `JSON.stringify` branch is always the one
taken; `keyArrangeDeep` of the projected object is the recursive key sort
`sortPairs ∘ arrangePairs`. -/
def getKey (cfg : Config) (id : String) (settings : List (String × JsVal)) : String :=
  let hashable : List (String × JsVal) :=
    sortPairs (arrangePairs (settings.filter hashKeep))
  cfg.keyRewrite
    (if hashable.isEmpty then id
     else id ++ "-" ++ cfg.sha256 (stringify (.obj hashable)))

/-- The cache-key derivation as §4.3 of the specification words it: first
drop the `$`-prefixed top-level keys, then deeply sort the keys of the
remaining projection; the key is the bare id exactly when the projection
is empty, and otherwise id + "-" + the digest of the stable serialization;
the result is finally passed through the `keyRewrite` hook. -/
def getKeySpec (cfg : Config) (id : String) (settings : List (String × JsVal)) : String :=
  let projected := settings.filter hashKeep
  let sorted := sortPairs (arrangePairs projected)
  cfg.keyRewrite
    (if projected.isEmpty then id
     else id ++ "-" ++ cfg.sha256 (stringify (.obj sorted)))

/-- Deep equality of JavaScript values up to the order of object keys
(arrays stay ordered; object fields may be permuted, recursively).  The
object case pairs `l₁` with some permutation `l₂'` of `l₂` so that keys
agree positionally and values are recursively equivalent. -/
def EquivKO : JsVal → JsVal → Prop
  | .null, .null => True
  | .bool a, .bool b => a = b
  | .num a, .num b => a = b
  | .str a, .str b => a = b
  | .arr xs, .arr ys =>
      xs.length = ys.length ∧
      ∀ i (h₁ : i < xs.length) (h₂ : i < ys.length),
        EquivKO (xs.get ⟨i, h₁⟩) (ys.get ⟨i, h₂⟩)
  | .obj l₁, .obj l₂ =>
      ∃ l₂' : List (String × JsVal), l₂'.Perm l₂ ∧ l₁.length = l₂'.length ∧
        ∀ i (h₁ : i < l₁.length) (h₂ : i < l₂'.length),
          (l₁.get ⟨i, h₁⟩).1 = (l₂'.get ⟨i, h₂⟩).1 ∧
          EquivKO (l₁.get ⟨i, h₁⟩).2 (l₂'.get ⟨i, h₂⟩).2
  | _, _ => False
termination_by a _ => sizeOf a
decreasing_by
  all_goals simp_wf
  · have hm := List.sizeOf_lt_of_mem (List.getElem_mem h₁)
    simp only [List.get_eq_getElem] at hm ⊢
    omega
  · have hm := List.sizeOf_lt_of_mem (List.getElem_mem h₁)
    simp only [List.get_eq_getElem] at hm ⊢
    rcases hget : l₁[i] with ⟨k, v⟩
    rw [hget] at hm
    simp at hm ⊢
    omega

mutual

/-- The JavaScript object invariant: every object, at every depth, has
pairwise distinct keys. -/
def wfNodup : JsVal → Bool
  | .null => true
  | .bool _ => true
  | .num _ => true
  | .str _ => true
  | .arr xs => wfList xs
  | .obj l => decide ((l.map Prod.fst).Nodup) && wfPairs l

/-- `wfNodup` over array elements. -/
def wfList : List JsVal → Bool
  | [] => true
  | v :: vs => wfNodup v && wfList vs

/-- `wfNodup` over object field values. -/
def wfPairs : List (String × JsVal) → Bool
  | [] => true
  | (_, v) :: ps => wfNodup v && wfPairs ps

end

/-! ### The orchestrator state and operations (`src/unnamed/part_010`) -/

/-- The state of a one-shot defer created by `agents.createDefer`. -/
inductive DeferState where
  | pending
  | resolvedD (v : Option JsVal)
  | rejectedD (e : JsVal)

/-- Observable external effects issued by the orchestrator: cache backend
calls and runner executions. -/
inductive Eff where
  | cacheRead (cache key : String)
  | cacheWrite (cache key : String)
  | cacheUnset (cache key : String)
  | runnerExec (runner key : String)
  | emitRun (key : String)

/-- The orchestrator's mutable state: the agent registry `_agents`, the
registered runner and cache names, the cache backends' contents (keyed by
cache name and key), the coalescer map `_running`, the queued `setTimeout`
bodies scheduled by `run`, the defer store, and a log of issued external
effects. -/
structure OrchState where
  agents : List (String × AgentDef)
  runners : List String
  caches : List String
  store : List ((String × String) × JsVal)
  running : List (String × Session)
  tasks : List Session
  defers : List (Nat × DeferState)
  nextDefer : Nat
  log : List Eff

/-- Cache backend read: `agents.caches[cache].get(key)`. -/
def storeGet (st : OrchState) (cache key : String) : Option JsVal :=
  alookup (cache, key) st.store

/-- Cache backend delete: `agents.caches[cache].unset(key)`. -/
def storeUnset (store : List ((String × String) × JsVal)) (cache key : String) :
    List ((String × String) × JsVal) :=
  store.filter (fun e => e.1 != (cache, key))

/-- The behaviour-modifying `settings` argument taken by `createSession`,
`get`, `run` and `invalidate` (a falsy/absent field is `none`). -/
structure Opts where
  cacheKey : Option String := none
  runner : Option String := none
  cache : Option String := none
  want : Option String := none
  lazy : Bool := false

/-- `agents.createSession`: reject unknown agent ids, assemble the base
session (allocating its one-shot defer), resolve and validate the runner,
then resolve and validate the cache.  The returned state differs from the
input state only in the defer store (the allocation performed by
`createDefer` while building the base session); the registry, coalescer
map, caches and effect log are untouched. -/
def createSession (cfg : Config) (st : OrchState) (id : String)
    (agentSettings : List (String × JsVal)) (opts : Opts) :
    Except String Session × OrchState :=
  match alookup id st.agents with
  | none => (.error ("Agent \"" ++ id ++ "\" is invalid"), st)
  | some agentDef =>
    let base : Session := {
      agent := id
      agentSettings := agentSettings
      cacheKey := opts.cacheKey.getD (getKey cfg id agentSettings)
      runner := ""
      cache := ""
      worker := agentDef
      deferId := st.nextDefer }
    let st₁ := { st with defers := st.defers ++ [(st.nextDefer, .pending)],
                         nextDefer := st.nextDefer + 1 }
    match opts.runner.orElse (fun _ => cfg.runnerCalc base) with
    | none => (.error "Unable to determine agent runner", st₁)
    | some r =>
      if st.runners.contains r then
        let withRunner := { base with runner := r }
        match opts.cache.orElse (fun _ => cfg.cacheCalc withRunner) with
        | none => (.error "Unable to determine agent cache", st₁)
        | some c =>
          if st.caches.contains c then (.ok { withRunner with cache := c }, st₁)
          else (.error ("Invalid agent cache: \"" ++ c ++ "\""), st₁)
      else (.error ("Invalid agent runner: \"" ++ r ++ "\""), st₁)

/-- The value observable by a caller of `agents.run`:
* `joinedPromise i` — the defer promise of the already-running session
  (the coalescing path);
* `ownPromise i` — the fresh session's defer promise;
* `sessionObj s` — the session object itself (`want = "session"`);
* `rejectFn i` — the promise **fulfilled** with the reject *function* of
  defer `i` (the `return session.defer.reject` path of the source);
* `rejected msg` — the promise rejected with `msg`. -/
inductive RunRes where
  | joinedPromise (deferId : Nat)
  | ownPromise (deferId : Nat)
  | sessionObj (s : Session)
  | rejectFn (deferId : Nat)
  | rejected (msg : String)

/-- Register a session in the coalescer map `_running` and queue its
`setTimeout` body. -/
def scheduleRun (st : OrchState) (session : Session) : OrchState :=
  { st with running := (session.cacheKey, session) :: st.running,
            tasks := st.tasks ++ [session] }

/-- The body of `agents.run` once a session is at hand: join an in-flight
session under the same `cacheKey` if one exists; otherwise check the
method/runner compatibility (the `session.worker.methods.indexOf` guard),
then register the session, queue its execution for the next tick, and
answer according to `settings.want`.  On `want = "session"`, the source
mutates `session.status` after registering the same object, so the stored
session carries the updated status. -/
def runCore (st : OrchState) (session : Session) (opts : Opts) : RunRes × OrchState :=
  match alookup session.cacheKey st.running with
  | some inflight => (.joinedPromise inflight.deferId, st)
  | none =>
    if session.worker.methods.contains session.runner then
      match opts.want with
      | none => (.ownPromise session.deferId, scheduleRun st session)
      | some "promise" => (.ownPromise session.deferId, scheduleRun st session)
      | some "session" =>
          let stored := { session with status := some "pending", result := none }
          (.sessionObj stored, scheduleRun st stored)
      | some w => (.rejected ("Unknown want type: \"" ++ w ++ "\""), scheduleRun st session)
    else
      match opts.want with
      | none => (.rejectFn session.deferId, st)
      | some "promise" => (.rejectFn session.deferId, st)
      | some "session" =>
          (.sessionObj { session with status := some "error", result := none }, st)
      | some w => (.rejected ("Unknown want type: \"" ++ w ++ "\""), st)

/-- `agents.run(id, agentSettings, settings)` called with an agent id:
create a session and pass it to the core. -/
def run (cfg : Config) (st : OrchState) (id : String)
    (agentSettings : List (String × JsVal)) (opts : Opts) : RunRes × OrchState :=
  match createSession cfg st id agentSettings opts with
  | (.error e, st₁) => (.rejected e, st₁)
  | (.ok session, st₁) => runCore st₁ session opts

/-- The defer state a runner outcome settles a pending defer into
(`defer.resolve(value)` / `defer.reject(err)`). -/
def settled (outcome : Except JsVal (Option JsVal)) : DeferState :=
  match outcome with
  | .ok v => .resolvedD v
  | .error e => .rejectedD e

/-- Settle one defer cell: a pending cell under `deferId` moves to
`newState`; an already-settled cell is untouched (a promise resolves at
most once), as is every other cell. -/
def settleOne (deferId : Nat) (newState : DeferState) (p : Nat × DeferState) :
    Nat × DeferState :=
  if p.1 = deferId then
    match p.2 with
    | .pending => (p.1, newState)
    | d => (p.1, d)
  else p

/-- The eventual completion of the `setTimeout` body queued by `run`: emit
the `run` event, clear the `-progress` record, execute the selected runner
(whose outcome — the worker being an external collaborator — is the
`outcome` parameter), settle the session's defer with it, and finally
delete the coalescer entry. -/
def taskComplete (st : OrchState) (session : Session)
    (outcome : Except JsVal (Option JsVal)) : OrchState :=
  let st₁ := { st with
    tasks := st.tasks.filter (fun t => t.deferId != session.deferId),
    store := storeUnset st.store session.cache (session.cacheKey ++ "-progress"),
    log := st.log ++ [Eff.emitRun session.cacheKey,
                      Eff.cacheUnset session.cache (session.cacheKey ++ "-progress"),
                      Eff.runnerExec session.runner session.cacheKey] }
  let st₂ := { st₁ with defers := st₁.defers.map (settleOne session.deferId (settled outcome)) }
  { st₂ with running := st₂.running.filter (fun p => p.1 != session.cacheKey) }

/-- The value observable by a caller of `agents.get`: the truthy cached
value, `undefined` (lazy miss), the adopted result of the `run` it
delegated to, or a rejection. -/
inductive GetRes where
  | value (v : JsVal)
  | undef
  | ran (r : RunRes)
  | rejected (msg : String)

/-- JS truthiness of a cache read result (`undefined` is falsy). -/
def truthyOpt : Option JsVal → Bool
  | some v => truthy v
  | none => false

/-- `agents.get`: create a session, probe the cache, and either resolve
with the (truthy) cached value, delegate to `run` (note: the source calls
`agents.run(session)` without forwarding the settings, so the delegated
run uses default options), or resolve `undefined` when `lazy`.  The
`cacheMethod` indirection (used only by `getSize`) is fixed to its default
`'get'` here, as no verified property exercises `getSize`. -/
def get (cfg : Config) (st : OrchState) (id : String)
    (agentSettings : List (String × JsVal)) (opts : Opts) : GetRes × OrchState :=
  match createSession cfg st id agentSettings opts with
  | (.error e, st₁) => (.rejected e, st₁)
  | (.ok session, st₁) =>
    let st₂ := { st₁ with log := st₁.log ++ [.cacheRead session.cache session.cacheKey] }
    let val := storeGet st₁ session.cache session.cacheKey
    if truthyOpt val then (.value (val.getD .null), st₂)
    else if !opts.lazy then
      let res := runCore st₂ session {}
      (.ran res.1, res.2)
    else (.undef, st₂)

/-- The value observable by a caller of `agents.invalidate`. -/
inductive InvRes where
  | done
  | rejected (msg : String)

/-- `agents.invalidate`: create a session and unset its cache key. -/
def invalidate (cfg : Config) (st : OrchState) (id : String)
    (agentSettings : List (String × JsVal)) (opts : Opts) : InvRes × OrchState :=
  match createSession cfg st id agentSettings opts with
  | (.error e, st₁) => (.rejected e, st₁)
  | (.ok session, st₁) =>
    (.done, { st₁ with store := storeUnset st₁.store session.cache session.cacheKey,
                       log := st₁.log ++ [.cacheUnset session.cache session.cacheKey] })

/-- Argument of `agents.getSession`: a session object or a bare cacheKey. -/
inductive SessRef where
  | byKey (k : String)
  | bySession (s : Session)

/-- The session fields populated by `agents.getSession`. -/
structure SessionView where
  result : Option JsVal
  progress : Option JsVal
  status : String
  error : Option JsVal

/-- The `error` field extraction `session.result.error`. -/
def errorField : JsVal → Option JsVal
  | .obj l => alookup "error" l
  | _ => none

/-- `agents.getSession`: scan the candidate caches for the value and the
`-progress` record, pick the first cache reporting either, then infer the
status: in-flight ⇒ `pending`; an object whose keys are exactly
`['error']` ⇒ `error`; any other object ⇒ `complete`; anything else
(including a present non-object value and an empty cache) ⇒ `error`. -/
def getSession (st : OrchState) (ref : SessRef) : SessionView :=
  let id := match ref with | .byKey k => k | .bySession s => s.cacheKey
  let possible := match ref with | .byKey _ => st.caches | .bySession s => [s.cache]
  let vals := possible.map (fun c => storeGet st c id)
  let progs := possible.map (fun c => storeGet st c (id ++ "-progress"))
  let idx := (List.range possible.length).find?
    (fun i => (vals.getD i none).isSome || (progs.getD i none).isSome)
  let result := match idx with | some i => vals.getD i none | none => none
  let progress := match idx with | some i => progs.getD i none | none => none
  if (alookup id st.running).isSome then
    { result := result, progress := progress, status := "pending", error := none }
  else
    match result with
    | some r =>
      if isObjectVal r && (keysOf r == ["error"]) then
        { result := result, progress := progress, status := "error", error := errorField r }
      else if isObjectVal r then
        { result := result, progress := progress, status := "complete", error := none }
      else
        { result := result, progress := progress, status := "error", error := none }
    | none => { result := result, progress := progress, status := "error", error := none }

/-- The coalescing invariant: coalescer keys are unique, queued task keys
are unique, and every queued task is the session registered under its own
key. -/
def Inflight (st : OrchState) : Prop :=
  (st.running.map Prod.fst).Nodup ∧
  (st.tasks.map Session.cacheKey).Nodup ∧
  ∀ t ∈ st.tasks, alookup t.cacheKey st.running = some t

/-! ### The inline runner (`src/runners/inline.js`) -/

/-- How the worker body behaves when the inline runner invokes it: either
it calls the continuation `finish(err, value)` or it throws synchronously
(`message` being the thrown error's `.message`). -/
inductive WorkerBehavior where
  | finishes (err : Option JsVal) (value : JsVal)
  | throws (message : String)

/-- The observable steps of one inline-runner execution, in order. -/
inductive Ev where
  | cacheSet (key : String) (v : JsVal) (expiry : Option Int)
  | resolveEv (v : Option JsVal)
  | rejectEv (cause : JsVal)
  | crash

/-- The `_.isString(expires) && expires` guard of the inline runner
(`expires: false`, the default, is modelled as `none`). -/
def expiresNonempty : Option String → Bool
  | some e => e != ""
  | none => false

/-- `exec` of the inline runner: on a continuation error, reject with the
reported cause unchanged; on success with `hasReturn` and a non-empty
`expires` string, write the value with the `timestring`-derived expiry
instant and only then resolve (an unparseable string makes `timestring`
throw inside the callback — modelled as `crash`); on success with
`hasReturn` and no usable expiry, write without expiry and then resolve;
without `hasReturn`, resolve `undefined` without writing; on a synchronous
throw, reject with the error's `.message`. -/
def inlineExec (timestring : String → Option Nat) (now : Int)
    (session : Session) (behavior : WorkerBehavior) : List Ev :=
  match behavior with
  | .throws msg => [.rejectEv (.str msg)]
  | .finishes (some e) _ => [.rejectEv e]
  | .finishes none v =>
    if session.worker.hasReturn && expiresNonempty session.worker.expires then
      match timestring (session.worker.expires.getD "") with
      | some n => [.cacheSet session.cacheKey v (some (now + n * 1000)), .resolveEv (some v)]
      | none => [.crash]
    else if session.worker.hasReturn then
      [.cacheSet session.cacheKey v none, .resolveEv (some v)]
    else [.resolveEv none]

/-! ### The PM2 runner's post-mortem log analysis (`src/runners/pm2.js`) -/

/-- Character class `[\d\-T:]` of the timestamp fields. -/
def dateClassChar (c : Char) : Bool := c.isDigit || c == '-' || c == 'T' || c == ':'

/-- What the regex `.` matches: any character except a line terminator. -/
def dotChar (c : Char) : Bool := c != '\n' && c != '\r'

/-- Strip a literal from the head of the input, or fail. -/
def dropLit : List Char → List Char → Option (List Char)
  | [], s => some s
  | c :: cs, d :: ds => if c = d then dropLit cs ds else none
  | _ :: _, [] => none

/-- Lazy (`+?`) matching of a non-empty run of `cls` characters followed
by a match of the rest of the pattern: try the shortest run first, as the
regex engine does. -/
def lazyMatch {α : Type} (cls : Char → Bool) (restP : List Char → Option α) :
    (acc : List Char) → List Char → Option (List Char × α)
  | _, [] => none
  | acc, c :: rest =>
    if cls c then
      match restP rest with
      | some a => some (acc ++ [c], a)
      | none => lazyMatch cls restP (acc ++ [c]) rest
    else none

/-- Numeric value of a digit run (`parseInt`). -/
def digitsToNat (ds : List Char) : Nat :=
  ds.foldl (fun n c => n * 10 + (c.toNat - 48)) 0

/-- The part of the *processKill* pattern after the timestamp:
`": PM2 log: pid=" (\d+) " msg=" (.*) $`. -/
def killRest (s : List Char) : Option (Nat × List Char) :=
  match dropLit (": PM2 log: pid=".toList) s with
  | none => none
  | some t =>
    let ds := t.takeWhile Char.isDigit
    if ds.isEmpty then none
    else
      match dropLit (" msg=".toList) (t.drop ds.length) with
      | none => none
      | some msg => if msg.all dotChar then some (digitsToNat ds, msg) else none

/-- The part of the *processSignal* pattern after the process name:
`":" (\d+) "] exited with code [" (\d+) "] via signal [" (SIGTERM|SIGKILL) "]" $`. -/
def signalTailRest (s : List Char) : Option (Nat × Nat × String) :=
  match dropLit [':'] s with
  | none => none
  | some t =>
    let ds := t.takeWhile Char.isDigit
    if ds.isEmpty then none
    else
      match dropLit ("] exited with code [".toList) (t.drop ds.length) with
      | none => none
      | some u =>
        let cs := u.takeWhile Char.isDigit
        if cs.isEmpty then none
        else
          match dropLit ("] via signal [".toList) (u.drop cs.length) with
          | none => none
          | some w =>
            match dropLit ("SIGTERM]".toList) w with
            | some [] => some (digitsToNat ds, digitsToNat cs, "SIGTERM")
            | _ =>
              match dropLit ("SIGKILL]".toList) w with
              | some [] => some (digitsToNat ds, digitsToNat cs, "SIGKILL")
              | _ => none

/-- The part of the *processSignal* pattern after the timestamp:
`": PM2 log: App [" (.+?) …`. -/
def signalRest (s : List Char) : Option (String × Nat × Nat × String) :=
  match dropLit (": PM2 log: App [".toList) s with
  | none => none
  | some t =>
    match lazyMatch dotChar signalTailRest [] t with
    | none => none
    | some (name, inst, code, sig) => some (String.mk name, inst, code, sig)

/-- The part of the *pmKill* pattern after the timestamp. -/
def stoppedRest (s : List Char) : Option Unit :=
  match dropLit (": PM2 log: PM2 successfully stopped".toList) s with
  | some [] => some ()
  | _ => none

/-- A parsed log-tail event (the JS `Date` parse of the timestamp group is
the abstract `parseDate`; `none` models an invalid date). -/
inductive LogEvent where
  | processKill (date : Option Int) (pid : Nat) (msg : String)
  | processSignal (date : Option Int) (name : String) (inst : Nat)
      (exitCode : Nat) (signal : String)
  | pm2Kill

/-- Parse one log line against the three patterns, in the source's order. -/
def parseLine (parseDate : List Char → Option Int) (line : List Char) : Option LogEvent :=
  match lazyMatch dateClassChar killRest [] line with
  | some (d, pid, msg) => some (.processKill (parseDate d) pid (String.mk msg))
  | none =>
    match lazyMatch dateClassChar signalRest [] line with
    | some (d, name, inst, code, sig) =>
        some (.processSignal (parseDate d) name inst code sig)
    | none =>
      match lazyMatch dateClassChar stoppedRest [] line with
      | some _ => some .pm2Kill
      | none => none

/-- JS `itemDate >= procStarted` (false when the date is invalid). -/
def dateGe (d : Option Int) (t : Int) : Bool :=
  match d with
  | some x => decide (t ≤ x)
  | none => false

/-- The relevance filter: a *processKill* for our child's pid at or after
the start instant, a *processSignal* for our process name at or after the
start instant, or any *pmKill*. -/
def relevantEvent (childPid : Nat) (procName : String) (procStarted : Int) :
    LogEvent → Bool
  | .processKill d pid _ => pid == childPid && dateGe d procStarted
  | .processSignal d name _ _ _ => name == procName && dateGe d procStarted
  | .pm2Kill => true

/-- JS `String.prototype.split('\n')`. -/
def splitLines : List Char → List (List Char)
  | [] => [[]]
  | c :: cs =>
    match splitLines cs with
    | [] => [[]]
    | l :: ls => if c = '\n' then [] :: l :: ls else (c :: l) :: ls

/-- JS `Array.prototype.slice(-n)`. -/
def lastN {α : Type} (n : Nat) (l : List α) : List α := l.drop (l.length - n)

/-- The last `tailSize` bytes of the log, split into lines, kept to the
last five, parsed, and filtered to the events relevant to this run. -/
def relevantEvents (parseDate : List Char → Option Int) (tailSize : Nat)
    (file : List Char) (childPid : Nat) (procName : String) (procStarted : Int) :
    List LogEvent :=
  let content := file.drop (file.length - tailSize)
  ((lastN 5 (splitLines content)).filterMap (parseLine parseDate)).filter
    (relevantEvent childPid procName procStarted)

def isProcessKill : LogEvent → Bool
  | .processKill _ _ _ => true
  | _ => false

def isProcessSignal : LogEvent → Bool
  | .processSignal _ _ _ _ _ => true
  | _ => false

def isPm2Kill : LogEvent → Bool
  | .pm2Kill => true
  | _ => false

/-- The error string produced for a matched *processSignal*. -/
def signalMessage : LogEvent → String
  | .processSignal _ _ _ code sig =>
      "Proceess killed by system (" ++ sig ++ " exit code " ++ toString code ++ ")"
  | _ => ""

/-- The priority decision over the filtered events: any *processKill*
fails first, else the first *processSignal*, else any *pmKill*; otherwise
succeed (`none`). -/
def postMortemDecision (items : List LogEvent) : Option String :=
  if items.any isProcessKill then some "Process killed by PM2"
  else
    match items.find? isProcessSignal with
    | some ev => some (signalMessage ev)
    | none => if items.any isPm2Kill then some "PM2 God is dead" else none

/-- The whole post-mortem: `some msg` is the error passed to `next(msg)`,
`none` is success. -/
def postMortem (parseDate : List Char → Option Int) (tailSize : Nat)
    (file : List Char) (childPid : Nat) (procName : String) (procStarted : Int) :
    Option String :=
  postMortemDecision (relevantEvents parseDate tailSize file childPid procName procStarted)

/-- The `runner.pm2` settings the post-mortem consults, with the defaults
of `agents.settings`. -/
structure Pm2Settings where
  logFileScan : Bool := true
  logFileTailSize : Nat := 2048

/-- The defaults of `agents.settings.runner.pm2`. -/
def defaultPm2Settings : Pm2Settings := {}

/-- The `stopping`/`stopped` branch of the PM2 runner's poll loop: a
nonzero exit code fails with the code and the error-log path; exit code 0
succeeds directly when log scanning is disabled and otherwise defers to
the post-mortem. -/
def stoppedCase (pm : Pm2Settings) (parseDate : List Char → Option Int)
    (file : List Char) (exitCode : Nat) (logPath : String) (childPid : Nat)
    (procName : String) (procStarted : Int) : Option String :=
  if exitCode == 0 then
    if !pm.logFileScan then none
    else postMortem parseDate pm.logFileTailSize file childPid procName procStarted
  else some ("Non-zero exit code: " ++ toString exitCode ++ " see " ++ logPath)

/-! ### Sample fixtures used by concrete evaluations -/

/-- A registered agent runnable by the inline runner. -/
def sampleAgent : AgentDef := { id := "alpha", hasReturn := true, methods := ["inline"] }

/-- A registered agent whose `methods` exclude the inline runner. -/
def pm2OnlyAgent : AgentDef := { id := "beta", hasReturn := true, methods := ["pm2"] }

/-- A concrete configuration: identity `keyRewrite` (the default), a
stand-in digest, and constant selection hooks matching the defaults
(`runner.calculate = () => 'inline'`, first cache module). -/
def sampleCfg : Config := {
  keyRewrite := defaultKeyRewrite
  sha256 := fun s => s
  runnerCalc := fun _ => some "inline"
  cacheCalc := fun _ => some "memory" }

/-- A freshly initialised orchestrator with the two sample agents, the two
stock runners and one cache backend. -/
def baseState : OrchState := {
  agents := [("alpha", sampleAgent), ("beta", pm2OnlyAgent)]
  runners := ["inline", "pm2"]
  caches := ["memory"]
  store := []
  running := []
  tasks := []
  defers := []
  nextDefer := 0
  log := [] }

/-- The session `createSession sampleCfg baseState "alpha" [] {}` builds. -/
def alphaSession : Session := {
  agent := "alpha"
  agentSettings := []
  cacheKey := "alpha"
  runner := "inline"
  cache := "memory"
  worker := sampleAgent
  deferId := 0 }

/-- A session already executing under cacheKey `"alpha"`. -/
def inflightSession : Session := {
  agent := "alpha"
  agentSettings := []
  cacheKey := "alpha"
  runner := "inline"
  cache := "memory"
  worker := sampleAgent
  deferId := 5 }

/-- An orchestrator with `inflightSession` registered and scheduled. -/
def busyState : OrchState := { baseState with
  running := [("alpha", inflightSession)]
  tasks := [inflightSession]
  defers := [(5, .pending)]
  nextDefer := 6 }

/-- The session a joining `run` on `busyState` builds (and discards)
when it asks for the pm2 runner and a session object. -/
def joinerSession : Session := {
  agent := "alpha"
  agentSettings := []
  cacheKey := "alpha"
  runner := "pm2"
  cache := "memory"
  worker := sampleAgent
  deferId := 6 }

/-- A state whose cache holds the falsy value `false` under `"alpha"`. -/
def falsyCachedState : OrchState :=
  { baseState with store := [(("memory", "alpha"), .bool false)] }

/-- A state whose cache holds the truthy value `7` under `"alpha"`. -/
def truthyCachedState : OrchState :=
  { baseState with store := [(("memory", "alpha"), .num 7)] }

/-- A state whose cache holds the non-object value `42` under `"foo"`. -/
def numberCachedState : OrchState :=
  { baseState with store := [(("memory", "foo"), .num 42)] }

/-- `numberCachedState` with an execution in flight under `"foo"`. -/
def numberCachedRunningState : OrchState :=
  { numberCachedState with running := [("foo", inflightSession)] }

/-- A state whose cache holds an `{error: "boom"}` record under `"bar"`. -/
def errorCachedState : OrchState :=
  { baseState with store := [(("memory", "bar"), .obj [("error", .str "boom")])] }

/-- A fixed `Date` parse used by concrete post-mortem runs. -/
def pdW : List Char → Option Int := fun _ => some 100

/-- A log tail whose last line is a *processKill* for pid 42. -/
def killLog : String :=
  "noise\n2020-01-01T00:00:01: PM2 log: pid=42 msg=stopped"

/-- A log tail whose last line is a *processSignal* for `agent-alpha`. -/
def sigLog : String :=
  "noise\n2020-01-01T00:00:01: PM2 log: App [agent-alpha:0] exited with code [0] via signal [SIGTERM]"

/-- A log tail whose last line is a *pmKill*. -/
def deadLog : String :=
  "noise\n2020-01-01T00:00:01: PM2 log: PM2 successfully stopped"

/-- A log tail with no recognizable pattern. -/
def noneLog : String :=
  "noise\nmore noise\nstill nothing"

/-! ## Theorems -/

/-! ### Generic helper lemmas -/

theorem arrangeList_eq_map (xs : List JsVal) : arrangeList xs = xs.map arrangeDeep := by
  induction xs with
  | nil => rfl
  | cons v vs ih => simp [arrangeList, ih]

theorem arrangePairs_eq_map (l : List (String × JsVal)) :
    arrangePairs l = l.map (fun p => (p.1, arrangeDeep p.2)) := by
  induction l with
  | nil => rfl
  | cons p ps ih => cases p; simp [arrangePairs, ih]

theorem sortPairs_perm (l : List (String × JsVal)) : (sortPairs l).Perm l :=
  List.perm_insertionSort pairLe l

theorem sortPairs_sorted (l : List (String × JsVal)) : List.Sorted pairLe (sortPairs l) :=
  List.sorted_insertionSort pairLe l

theorem sortPairs_length (l : List (String × JsVal)) : (sortPairs l).length = l.length :=
  (sortPairs_perm l).length_eq

theorem arrangePairs_length (l : List (String × JsVal)) :
    (arrangePairs l).length = l.length := by
  rw [arrangePairs_eq_map, List.length_map]

theorem isEmpty_congr_length {α β : Type} {l₁ : List α} {l₂ : List β}
    (h : l₁.length = l₂.length) : l₁.isEmpty = l₂.isEmpty := by
  cases l₁ <;> cases l₂ <;> simp_all

theorem charListLt_of_le_ne : ∀ (xs ys : List Char), charListLe xs ys = true →
    xs ≠ ys → charListLt xs ys = true := by
  intro xs
  induction xs with
  | nil =>
    intro ys h hne
    cases ys with
    | nil => exact absurd rfl hne
    | cons y ys => rfl
  | cons x xs ih =>
    intro ys h hne
    cases ys with
    | nil => exact absurd h (by simp [charListLe])
    | cons y ys =>
      simp only [charListLe] at h
      simp only [charListLt]
      rcases Nat.lt_trichotomy x.toNat y.toNat with hc | hc | hc
      · simp [hc]
      · have h1 : ¬ x.toNat < y.toNat := by omega
        have h2 : ¬ y.toNat < x.toNat := by omega
        rw [if_neg h1, if_neg h2] at h ⊢
        have hxy : x = y := Char.ext (UInt32.ext hc)
        subst hxy
        refine ih ys h (fun he => hne ?_)
        rw [he]
      · rw [if_neg (show ¬ x.toNat < y.toNat by omega),
            if_pos (show y.toNat < x.toNat by omega)] at h
        exact absurd h (by simp)

theorem stringEq_of_toList_eq {s t : String} (h : s.toList = t.toList) : s = t := by
  cases s
  cases t
  simp only [String.toList] at h
  rw [h]

theorem sorted_pairLt_of_nodup {l : List (String × JsVal)}
    (hs : List.Sorted pairLe l) (hn : (l.map Prod.fst).Nodup) :
    List.Sorted pairLt l := by
  have hp : List.Pairwise (fun (a b : String × JsVal) => a.1 ≠ b.1) l :=
    List.pairwise_map.mp hn
  refine (hs.and hp).imp fun h => ?_
  exact charListLt_of_le_ne _ _ h.1 (fun he => h.2 (stringEq_of_toList_eq he))

theorem sortPairs_eq_of_perm {l₁ l₂ : List (String × JsVal)}
    (h : l₁.Perm l₂) (hn : (l₁.map Prod.fst).Nodup) :
    sortPairs l₁ = sortPairs l₂ := by
  have hp : (sortPairs l₁).Perm (sortPairs l₂) :=
    (sortPairs_perm l₁).trans (h.trans (sortPairs_perm l₂).symm)
  have hns₁ : ((sortPairs l₁).map Prod.fst).Nodup :=
    (((sortPairs_perm l₁).map Prod.fst).nodup_iff).mpr hn
  have hns₂ : ((sortPairs l₂).map Prod.fst).Nodup :=
    (((sortPairs_perm l₂).map Prod.fst).nodup_iff).mpr
      (((h.map Prod.fst).nodup_iff).mp hn)
  exact List.eq_of_perm_of_sorted hp
    (sorted_pairLt_of_nodup (sortPairs_sorted l₁) hns₁)
    (sorted_pairLt_of_nodup (sortPairs_sorted l₂) hns₂)

/-! ### C3: cache-key derivation follows the specification's steps -/

/-- C3: `getKey(id, settings)` drops the top-level `$`-keys, deeply sorts
the keys of the remaining projection, returns exactly `id` when the
projection is empty and otherwise `id + "-" + sha256(stableJSON)` of the
projection, and finally passes the result through the configured
`keyRewrite` hook — which is the identity by default. -/
theorem getKey_matches_spec :
    (∀ (cfg : Config) (id : String) (settings : List (String × JsVal)),
        getKey cfg id settings = getKeySpec cfg id settings) ∧
    (∀ s, defaultKeyRewrite s = s) := by
  refine ⟨fun cfg id settings => ?_, fun _ => rfl⟩
  simp only [getKey, getKeySpec]
  have hc : (sortPairs (arrangePairs (settings.filter hashKeep))).isEmpty =
      (settings.filter hashKeep).isEmpty :=
    isEmpty_congr_length (by rw [sortPairs_length, arrangePairs_length])
  rw [hc]

/-! ### C4: key determinism -/

theorem wfList_mem {xs : List JsVal} (h : wfList xs = true) {v : JsVal} (hv : v ∈ xs) :
    wfNodup v = true := by
  induction xs with
  | nil => cases hv
  | cons x xs ih =>
    simp only [wfList, Bool.and_eq_true] at h
    cases hv with
    | head => exact h.1
    | tail _ hv => exact ih h.2 hv

theorem wfPairs_mem {l : List (String × JsVal)} (h : wfPairs l = true)
    {p : String × JsVal} (hp : p ∈ l) : wfNodup p.2 = true := by
  induction l with
  | nil => cases hp
  | cons q qs ih =>
    obtain ⟨k, v⟩ := q
    simp only [wfPairs, Bool.and_eq_true] at h
    cases hp with
    | head => exact h.1
    | tail _ hp => exact ih h.2 hp

theorem arrangePairs_keys (l : List (String × JsVal)) :
    (arrangePairs l).map Prod.fst = l.map Prod.fst := by
  induction l with
  | nil => rfl
  | cons p ps ih => cases p; simp [arrangePairs, ih]

theorem arrangeDeep_congr : ∀ (a b : JsVal), EquivKO a b → wfNodup a = true →
    arrangeDeep a = arrangeDeep b := by
  suffices H : ∀ (n : Nat) (a b : JsVal), sizeOf a ≤ n → EquivKO a b →
      wfNodup a = true → arrangeDeep a = arrangeDeep b by
    exact fun a b h hw => H (sizeOf a) a b le_rfl h hw
  intro n
  induction n with
  | zero =>
    intro a b hs _ _
    exfalso
    cases a <;> simp at hs
  | succ n ih =>
    intro a b hs h hw
    cases a <;> cases b <;> rw [EquivKO.eq_def] at h <;> try exact h.elim
    case bool.bool => exact congrArg JsVal.bool h
    case num.num => exact congrArg JsVal.num h
    case str.str => exact congrArg JsVal.str h
    case arr.arr =>
      rename_i xs ys
      obtain ⟨hlen, hpt⟩ := h
      simp only [arrangeDeep, arrangeList_eq_map]
      congr 1
      refine List.ext_get (by simp [hlen]) ?_
      intro i h₁ h₂
      rw [List.length_map] at h₁ h₂
      simp only [List.get_eq_getElem, List.getElem_map]
      apply ih
      · have hm := List.sizeOf_lt_of_mem (List.getElem_mem h₁)
        simp only [JsVal.arr.sizeOf_spec] at hs
        omega
      · have := hpt i h₁ h₂
        simpa [List.get_eq_getElem] using this
      · have hw' : wfList xs = true := by simpa [wfNodup] using hw
        exact wfList_mem hw' (List.getElem_mem h₁)
    case obj.obj =>
      rename_i l₁ l₂
      obtain ⟨l₂', hperm, hlen, hpt⟩ := h
      simp only [wfNodup, Bool.and_eq_true, decide_eq_true_eq] at hw
      obtain ⟨hnodup, hwp⟩ := hw
      simp only [arrangeDeep]
      congr 1
      have hstep : arrangePairs l₁ = arrangePairs l₂' := by
        rw [arrangePairs_eq_map, arrangePairs_eq_map]
        refine List.ext_get (by simp [hlen]) ?_
        intro i h₁ h₂
        rw [List.length_map] at h₁ h₂
        simp only [List.get_eq_getElem, List.getElem_map]
        obtain ⟨hkey, hval⟩ := hpt i h₁ h₂
        simp only [List.get_eq_getElem] at hkey hval
        have hv : arrangeDeep (l₁[i]).2 = arrangeDeep (l₂'[i]).2 := by
          apply ih
          · have hm := List.sizeOf_lt_of_mem (List.getElem_mem h₁)
            have hp2 : sizeOf (l₁[i]).2 < sizeOf (l₁[i]) := by
              rcases l₁[i] with ⟨k, v⟩
              simp
            simp only [JsVal.obj.sizeOf_spec] at hs
            omega
          · exact hval
          · exact wfPairs_mem hwp (List.getElem_mem h₁)
        rw [hkey, hv]
      have hpermA : (arrangePairs l₁).Perm (arrangePairs l₂) := by
        rw [hstep, arrangePairs_eq_map, arrangePairs_eq_map]
        exact hperm.map _
      have hkeys : ((arrangePairs l₁).map Prod.fst).Nodup := by
        rw [arrangePairs_keys]
        exact hnodup
      exact sortPairs_eq_of_perm hpermA hkeys

theorem forall2_filter_hashKeep {R : (String × JsVal) → (String × JsVal) → Prop}
    (hR : ∀ p q, R p q → p.1 = q.1) :
    ∀ {l₁ l₂ : List (String × JsVal)}, List.Forall₂ R l₁ l₂ →
      List.Forall₂ R (l₁.filter hashKeep) (l₂.filter hashKeep) := by
  intro l₁ l₂ h
  induction h with
  | nil => exact .nil
  | @cons a b l₁' l₂' hab hl ih =>
    rw [List.filter_cons, List.filter_cons]
    have hk : hashKeep a = hashKeep b := by
      unfold hashKeep
      rw [hR a b hab]
    cases hcb : hashKeep b with
    | false => simpa [hk, hcb] using ih
    | true =>
      simp only [hk, hcb, if_true]
      exact .cons hab ih

theorem equivKO_filter_hashKeep {S S' : List (String × JsVal)}
    (h : EquivKO (.obj S) (.obj S')) :
    EquivKO (.obj (S.filter hashKeep)) (.obj (S'.filter hashKeep)) := by
  rw [EquivKO.eq_def] at h ⊢
  obtain ⟨S₂', hperm, hlen, hpt⟩ := h
  have hF : List.Forall₂ (fun (p q : String × JsVal) => p.1 = q.1 ∧ EquivKO p.2 q.2) S S₂' :=
    List.forall₂_iff_get.mpr ⟨hlen, fun i h₁ h₂ => hpt i h₁ h₂⟩
  have hFf := forall2_filter_hashKeep (fun p q hpq => hpq.1) hF
  exact ⟨S₂'.filter hashKeep, hperm.filter _, (List.forall₂_iff_get.mp hFf).1,
    fun i h₁ h₂ => (List.forall₂_iff_get.mp hFf).2 i h₁ h₂⟩

theorem wfPairs_filter {l : List (String × JsVal)} (h : wfPairs l = true) :
    wfPairs (l.filter hashKeep) = true := by
  induction l with
  | nil => rfl
  | cons p ps ih =>
    obtain ⟨k, v⟩ := p
    simp only [wfPairs, Bool.and_eq_true] at h
    rw [List.filter_cons]
    cases hc : hashKeep (k, v) with
    | false => exact ih h.2
    | true =>
      simp only [if_true]
      simp only [wfPairs, Bool.and_eq_true]
      exact ⟨h.1, ih h.2⟩

theorem wf_filter_obj {S : List (String × JsVal)} (h : wfNodup (.obj S) = true) :
    wfNodup (.obj (S.filter hashKeep)) = true := by
  simp only [wfNodup, Bool.and_eq_true, decide_eq_true_eq] at h ⊢
  exact ⟨((List.filter_sublist S).map Prod.fst).nodup h.1, wfPairs_filter h.2⟩

theorem filter_hashKeep_replace (k : String) (v : JsVal) (hk : startsWithDollar k = true) :
    ∀ S : List (String × JsVal),
      (S.map (fun p => if p.1 = k then (k, v) else p)).filter hashKeep = S.filter hashKeep := by
  have hkf : hashKeep (k, v) = false := by simp [hashKeep, hk]
  intro S
  induction S with
  | nil => rfl
  | cons p ps ih =>
    rw [List.map_cons, List.filter_cons, List.filter_cons]
    by_cases hpk : p.1 = k
    · have hpf : hashKeep p = false := by
        simp [hashKeep, hpk, hk]
      simp [hpk, hkf, hpf, ih]
    · simp [hpk, ih]

theorem filter_hashKeep_setKey (S : List (String × JsVal)) (k : String) (v : JsVal)
    (hk : startsWithDollar k = true) :
    (setKey S k v).filter hashKeep = S.filter hashKeep := by
  have hkf : hashKeep (k, v) = false := by simp [hashKeep, hk]
  unfold setKey
  by_cases hc : (S.map Prod.fst).contains k = true
  · simp only [hc, if_true]
    exact filter_hashKeep_replace k v hk S
  · simp only [hc, if_false, Bool.false_eq_true]
    rw [List.filter_append]
    simp [hkf]

theorem filter_hashKeep_removeKey (S : List (String × JsVal)) (k : String)
    (hk : startsWithDollar k = true) :
    (removeKey S k).filter hashKeep = S.filter hashKeep := by
  unfold removeKey
  induction S with
  | nil => rfl
  | cons p ps ih =>
    rw [List.filter_cons]
    by_cases hpk : p.1 = k
    · have h1 : (p.1 != k) = false := by simp [hpk]
      have hpf : hashKeep p = false := by simp [hashKeep, hpk, hk]
      simp [h1, List.filter_cons, hpf, ih]
    · have h1 : (p.1 != k) = true := by simp [hpk]
      simp only [h1, if_true, List.filter_cons]
      rw [ih]

/-- C4: for all settings objects deep-equal up to key order (with the JS
distinct-keys invariant), `getKey` agrees; and adding, removing or
replacing a `$`-prefixed top-level key never changes the derived key. -/
theorem getKey_deterministic :
    (∀ (cfg : Config) (id : String) (S S' : List (String × JsVal)),
        EquivKO (.obj S) (.obj S') → wfNodup (.obj S) = true →
        getKey cfg id S = getKey cfg id S') ∧
    (∀ (cfg : Config) (id : String) (S : List (String × JsVal)) (k : String) (v : JsVal),
        startsWithDollar k = true →
        getKey cfg id (setKey S k v) = getKey cfg id S ∧
        getKey cfg id (removeKey S k) = getKey cfg id S) := by
  constructor
  · intro cfg id S S' h hw
    have h3 := arrangeDeep_congr _ _ (equivKO_filter_hashKeep h) (wf_filter_obj hw)
    simp only [arrangeDeep, JsVal.obj.injEq] at h3
    simp only [getKey, h3]
  · intro cfg id S k v hk
    refine ⟨?_, ?_⟩
    · simp only [getKey, filter_hashKeep_setKey S k v hk]
    · simp only [getKey, filter_hashKeep_removeKey S k hk]

/-- Witness for C4 at concrete inputs: `{b: 1, a: 2}` vs `{a: 2, b: 1}`
share a key, and adding `$hint` does not change it. -/
theorem getKey_deterministic_witness :
    (EquivKO (.obj [("b", .num 1), ("a", .num 2)]) (.obj [("a", .num 2), ("b", .num 1)]) ∧
     wfNodup (.obj [("b", .num 1), ("a", .num 2)]) = true ∧
     startsWithDollar "$hint" = true) ∧
    getKey sampleCfg "ag" [("b", .num 1), ("a", .num 2)] =
      getKey sampleCfg "ag" [("a", .num 2), ("b", .num 1)] ∧
    getKey sampleCfg "ag" (setKey [("b", .num 1), ("a", .num 2)] "$hint" .null) =
      getKey sampleCfg "ag" [("b", .num 1), ("a", .num 2)] := by
  have hE : EquivKO (.obj [("b", JsVal.num 1), ("a", JsVal.num 2)])
      (.obj [("a", JsVal.num 2), ("b", JsVal.num 1)]) := by
    rw [EquivKO.eq_def]
    refine ⟨[("b", JsVal.num 1), ("a", JsVal.num 2)],
      List.Perm.swap ("a", JsVal.num 2) ("b", JsVal.num 1) [], rfl, ?_⟩
    intro i h₁ h₂
    have hb : i < 2 := by simpa using h₁
    rcases i with _ | _ | i
    · exact ⟨rfl, by rw [EquivKO.eq_def]; exact rfl⟩
    · exact ⟨rfl, by rw [EquivKO.eq_def]; exact rfl⟩
    · omega
  refine ⟨⟨hE, by decide, by decide⟩, ?_, ?_⟩
  · exact getKey_deterministic.1 sampleCfg "ag" _ _ hE (by decide)
  · exact (getKey_deterministic.2 sampleCfg "ag"
      [("b", .num 1), ("a", .num 2)] "$hint" .null (by decide)).1

/-! ### Association-list and state helper lemmas -/

theorem notMem_keys_of_alookup_none {κ α : Type} [DecidableEq κ] {k : κ} :
    ∀ {l : List (κ × α)}, alookup k l = none → k ∉ l.map Prod.fst := by
  intro l
  induction l with
  | nil =>
    intro _ h
    cases h
  | cons p ps ih =>
    intro h hm
    simp only [alookup] at h
    by_cases hp : p.1 = k
    · rw [if_pos hp] at h
      cases h
    · rw [if_neg hp] at h
      rcases List.mem_cons.mp hm with he | hm'
      · exact hp he.symm
      · exact ih h hm'

theorem alookup_filter_self {κ α : Type} [DecidableEq κ] [BEq κ] [LawfulBEq κ] (k : κ) :
    ∀ (l : List (κ × α)), alookup k (l.filter (fun p => p.1 != k)) = none := by
  intro l
  induction l with
  | nil => rfl
  | cons p ps ih =>
    rw [List.filter_cons]
    by_cases h : p.1 = k
    · have hb : (p.1 != k) = false := by simp [h]
      simp only [hb, Bool.false_eq_true, if_false]
      exact ih
    · have hb : (p.1 != k) = true := by simp [h]
      simp only [hb, if_true, alookup, if_neg h]
      exact ih

theorem alookup_filter_ne {κ α : Type} [DecidableEq κ] [BEq κ] [LawfulBEq κ]
    {key k : κ} (hne : key ≠ k) :
    ∀ (l : List (κ × α)), alookup key (l.filter (fun p => p.1 != k)) = alookup key l := by
  intro l
  induction l with
  | nil => rfl
  | cons p ps ih =>
    rw [List.filter_cons]
    by_cases hp : p.1 = k
    · have hb : (p.1 != k) = false := by simp [hp]
      have hne' : p.1 ≠ key := by
        rw [hp]
        exact fun he => hne he.symm
      simp only [hb, Bool.false_eq_true, if_false]
      rw [ih]
      simp only [alookup, if_neg hne']
    · have hb : (p.1 != k) = true := by simp [hp]
      simp only [hb, if_true, alookup]
      by_cases hk : p.1 = key
      · simp [hk]
      · simp [hk, ih]

theorem alookup_settleOne {l : List (Nat × DeferState)} {i : Nat} (d : DeferState)
    (h : alookup i l = some .pending) :
    alookup i (l.map (settleOne i d)) = some d := by
  induction l with
  | nil => cases h
  | cons p ps ih =>
    simp only [alookup] at h
    simp only [List.map_cons]
    by_cases hp : p.1 = i
    · rw [if_pos hp] at h
      have hpend : p.2 = DeferState.pending := Option.some.inj h
      simp only [alookup, settleOne, if_pos hp, hpend]
    · rw [if_neg hp] at h
      simp only [alookup, settleOne, if_neg hp]
      exact ih h

theorem runCore_join {st : OrchState} {session : Session} (opts : Opts) {s₀ : Session}
    (hl : alookup session.cacheKey st.running = some s₀) :
    runCore st session opts = (.joinedPromise s₀.deferId, st) := by
  simp [runCore, hl]

theorem runCore_fresh_promise {st : OrchState} {session : Session} {opts : Opts}
    (hl : alookup session.cacheKey st.running = none)
    (hm : session.worker.methods.contains session.runner = true)
    (hw : opts.want = none) :
    runCore st session opts = (.ownPromise session.deferId, scheduleRun st session) := by
  have hm2 : session.runner ∈ session.worker.methods := by simpa using hm
  simp [runCore, hl, hm2, hw]

theorem inflight_scheduleRun {st : OrchState} {s : Session}
    (hI : Inflight st) (hnone : alookup s.cacheKey st.running = none) :
    Inflight (scheduleRun st s) := by
  obtain ⟨h1, h2, h3⟩ := hI
  have hk : s.cacheKey ∉ st.running.map Prod.fst := notMem_keys_of_alookup_none hnone
  have htk : s.cacheKey ∉ st.tasks.map Session.cacheKey := by
    intro hmem
    rcases List.mem_map.mp hmem with ⟨t, ht, hte⟩
    have := h3 t ht
    rw [hte, hnone] at this
    cases this
  refine ⟨?_, ?_, ?_⟩
  · simp only [scheduleRun, List.map_cons]
    exact List.nodup_cons.mpr ⟨hk, h1⟩
  · simp only [scheduleRun, List.map_append, List.map_cons, List.map_nil]
    rw [List.nodup_append]
    exact ⟨h2, List.nodup_singleton _, by
      intro a ha hb
      rcases List.mem_singleton.mp hb with rfl
      exact htk ha⟩
  · intro t ht
    simp only [scheduleRun] at ht ⊢
    rcases List.mem_append.mp ht with ht' | ht'
    · have hold := h3 t ht'
      have hne : ¬ (s.cacheKey = t.cacheKey) := by
        intro he
        rw [← he, hnone] at hold
        cases hold
      simp only [alookup, if_neg hne]
      exact hold
    · rcases List.mem_singleton.mp ht' with rfl
      simp [alookup]

theorem inflight_runCore {st : OrchState} (session : Session) (opts : Opts)
    (hI : Inflight st) : Inflight (runCore st session opts).2 := by
  cases hl : alookup session.cacheKey st.running with
  | some s' => simpa [runCore, hl] using hI
  | none =>
    by_cases hm : session.runner ∈ session.worker.methods
    · rcases hwant : opts.want with _ | w
      · simpa [runCore, hl, hm, hwant] using inflight_scheduleRun hI hl
      · by_cases hw1 : w = "promise"
        · subst hw1
          simpa [runCore, hl, hm, hwant] using inflight_scheduleRun hI hl
        · by_cases hw2 : w = "session"
          · subst hw2
            simpa [runCore, hl, hm, hwant] using
              inflight_scheduleRun (s := { session with status := some "pending", result := none })
                hI hl
          · simpa [runCore, hl, hm, hwant, hw1, hw2] using inflight_scheduleRun hI hl
    · rcases hwant : opts.want with _ | w
      · simpa [runCore, hl, hm, hwant] using hI
      · by_cases hw1 : w = "promise"
        · subst hw1
          simpa [runCore, hl, hm, hwant] using hI
        · by_cases hw2 : w = "session"
          · subst hw2
            simpa [runCore, hl, hm, hwant] using hI
          · simpa [runCore, hl, hm, hwant, hw1, hw2] using hI

theorem inflight_taskComplete {st : OrchState} {s : Session}
    (out : Except JsVal (Option JsVal))
    (hI : Inflight st) (hreg : alookup s.cacheKey st.running = some s) :
    Inflight (taskComplete st s out) := by
  obtain ⟨h1, h2, h3⟩ := hI
  have hrun : (taskComplete st s out).running =
      st.running.filter (fun p => p.1 != s.cacheKey) := rfl
  have htasks : (taskComplete st s out).tasks =
      st.tasks.filter (fun t => t.deferId != s.deferId) := rfl
  refine ⟨?_, ?_, ?_⟩
  · rw [hrun]
    exact ((List.filter_sublist _).map Prod.fst).nodup h1
  · rw [htasks]
    exact ((List.filter_sublist _).map Session.cacheKey).nodup h2
  · intro t ht
    rw [htasks] at ht
    have htm := List.mem_filter.mp ht
    obtain ⟨htm, hdne⟩ := htm
    have hl := h3 t htm
    have hne : t.cacheKey ≠ s.cacheKey := by
      intro he
      rw [he, hreg] at hl
      injection hl with hst
      simp only [bne_iff_ne, ne_eq] at hdne
      exact hdne (by rw [hst])
    rw [hrun, alookup_filter_ne hne]
    exact hl

/-! ### C1: coalescing invariant -/

/-- C1: a `run` arriving while `_running` holds a session under the same
cacheKey returns that session's defer promise and leaves the state
entirely untouched — no new registration, no queued execution, no effects
— so every concurrent caller holds the same defer; the completion step is
what settles the defer (resolving on success, rejecting on error) and
removes the coalescer entry in the same step; and both `run` and the
completion step preserve the at-most-one-execution-per-key invariant. -/
theorem run_coalescing_invariant :
    ∀ (st : OrchState) (session : Session) (opts : Opts) (s₀ : Session)
      (st₂ : OrchState) (sess : Session) (out : Except JsVal (Option JsVal)),
      (alookup session.cacheKey st.running = some s₀ →
        runCore st session opts = (RunRes.joinedPromise s₀.deferId, st)) ∧
      (alookup sess.deferId st₂.defers = some .pending →
        alookup sess.cacheKey (taskComplete st₂ sess out).running = none ∧
        alookup sess.deferId (taskComplete st₂ sess out).defers = some (settled out)) ∧
      (Inflight st → Inflight (runCore st session opts).2) ∧
      (Inflight st₂ → alookup sess.cacheKey st₂.running = some sess →
        Inflight (taskComplete st₂ sess out)) := by
  intro st session opts s₀ st₂ sess out
  refine ⟨fun hl => runCore_join opts hl, fun hd => ⟨?_, ?_⟩,
    fun hI => inflight_runCore session opts hI,
    fun hI hreg => inflight_taskComplete out hI hreg⟩
  · exact alookup_filter_self sess.cacheKey _
  · exact alookup_settleOne (settled out) hd

/-- Witness for C1 on a concrete busy orchestrator. -/
theorem run_coalescing_invariant_witness :
    runCore busyState alphaSession {} = (.joinedPromise 5, busyState) ∧
    alookup "alpha" (taskComplete busyState inflightSession (.ok (some .null))).running = none ∧
    alookup 5 (taskComplete busyState inflightSession (.ok (some .null))).defers =
      some (.resolvedD (some .null)) ∧
    Inflight (runCore busyState alphaSession {}).2 ∧
    Inflight (taskComplete busyState inflightSession (.ok (some .null))) := by
  have hI : Inflight busyState := by
    refine ⟨by decide, by decide, ?_⟩
    intro t ht
    rcases List.mem_singleton.mp ht with rfl
    rfl
  have h := run_coalescing_invariant busyState alphaSession {} inflightSession
    busyState inflightSession (.ok (some .null))
  exact ⟨h.1 rfl, (h.2.1 rfl).1, (h.2.1 rfl).2, h.2.2.1 hI, h.2.2.2 hI rfl⟩

/-! ### createSession only allocates its defer -/

theorem createSession_fields (cfg : Config) (st : OrchState) (id : String)
    (aS : List (String × JsVal)) (opts : Opts) :
    (createSession cfg st id aS opts).2.running = st.running ∧
    (createSession cfg st id aS opts).2.tasks = st.tasks ∧
    (createSession cfg st id aS opts).2.store = st.store ∧
    (createSession cfg st id aS opts).2.log = st.log ∧
    (createSession cfg st id aS opts).2.caches = st.caches ∧
    (createSession cfg st id aS opts).2.agents = st.agents := by
  simp only [createSession]
  repeat' split
  all_goals exact ⟨rfl, rfl, rfl, rfl, rfl, rfl⟩

/-! ### C9: a joining `run` returns the in-flight defer regardless of `want` -/

/-- C9: when a session with the same derived cacheKey is already in
flight, `run` — for any `want`, runner choice and cache choice the joiner
resolved — returns the in-flight session's defer promise (not a session
object) and leaves the coalescer map, task queue, cache store and effect
log untouched. -/
theorem run_join_ignores_want (cfg : Config) (st : OrchState) (id : String)
    (aS : List (String × JsVal)) (opts : Opts) (s s₀ : Session)
    (hcs : (createSession cfg st id aS opts).1 = .ok s)
    (hinf : alookup s.cacheKey st.running = some s₀) :
    (run cfg st id aS opts).1 = .joinedPromise s₀.deferId ∧
    (run cfg st id aS opts).2.running = st.running ∧
    (run cfg st id aS opts).2.tasks = st.tasks ∧
    (run cfg st id aS opts).2.store = st.store ∧
    (run cfg st id aS opts).2.log = st.log := by
  have hc : createSession cfg st id aS opts = (.ok s, (createSession cfg st id aS opts).2) := by
    rw [← hcs]
  have hf := createSession_fields cfg st id aS opts
  have hinf' : alookup s.cacheKey (createSession cfg st id aS opts).2.running = some s₀ := by
    rw [hf.1]
    exact hinf
  have hrun : run cfg st id aS opts =
      (RunRes.joinedPromise s₀.deferId, (createSession cfg st id aS opts).2) := by
    have h1 : run cfg st id aS opts = runCore (createSession cfg st id aS opts).2 s opts := by
      unfold run
      rw [hc]
    rw [h1, runCore_join opts hinf']
  rw [hrun]
  exact ⟨rfl, hf.1, hf.2.1, hf.2.2.1, hf.2.2.2.1⟩

/-- Witness for C9: a joiner asking for `want = "session"` with the pm2
runner still receives the in-flight session's promise. -/
theorem run_join_ignores_want_witness :
    ((createSession sampleCfg busyState "alpha" []
        { want := some "session", runner := some "pm2" }).1 = .ok joinerSession ∧
     alookup "alpha" busyState.running = some inflightSession) ∧
    (run sampleCfg busyState "alpha" [] { want := some "session", runner := some "pm2" }).1 =
      .joinedPromise 5 ∧
    (run sampleCfg busyState "alpha" [] { want := some "session", runner := some "pm2" }).2.running =
      busyState.running := by
  have h := run_join_ignores_want sampleCfg busyState "alpha" []
    { want := some "session", runner := some "pm2" } joinerSession inflightSession rfl rfl
  exact ⟨⟨rfl, rfl⟩, h.1, h.2.1⟩

/-! ### C10: a failed createSession leaves the observable state unchanged -/

/-- C10: whenever `createSession` rejects (unknown agent, unresolvable or
unknown runner, unresolvable or unknown cache), the initiating `run`,
`get` or `invalidate` call rejects with that very error and the coalescer
map, task queue, cache store and effect log are unchanged — no cache
read, write or unset is issued and no runner is invoked. -/
theorem createSession_failure_inert (cfg : Config) (st : OrchState) (id : String)
    (aS : List (String × JsVal)) (opts : Opts) (e : String)
    (h : (createSession cfg st id aS opts).1 = .error e) :
    ((run cfg st id aS opts).1 = .rejected e ∧
     (run cfg st id aS opts).2.running = st.running ∧
     (run cfg st id aS opts).2.tasks = st.tasks ∧
     (run cfg st id aS opts).2.store = st.store ∧
     (run cfg st id aS opts).2.log = st.log) ∧
    ((get cfg st id aS opts).1 = .rejected e ∧
     (get cfg st id aS opts).2.running = st.running ∧
     (get cfg st id aS opts).2.tasks = st.tasks ∧
     (get cfg st id aS opts).2.store = st.store ∧
     (get cfg st id aS opts).2.log = st.log) ∧
    ((invalidate cfg st id aS opts).1 = .rejected e ∧
     (invalidate cfg st id aS opts).2.running = st.running ∧
     (invalidate cfg st id aS opts).2.tasks = st.tasks ∧
     (invalidate cfg st id aS opts).2.store = st.store ∧
     (invalidate cfg st id aS opts).2.log = st.log) := by
  have hc : createSession cfg st id aS opts = (.error e, (createSession cfg st id aS opts).2) := by
    rw [← h]
  have hf := createSession_fields cfg st id aS opts
  have hrun : run cfg st id aS opts = (.rejected e, (createSession cfg st id aS opts).2) := by
    unfold run
    rw [hc]
  have hget : get cfg st id aS opts = (.rejected e, (createSession cfg st id aS opts).2) := by
    unfold get
    rw [hc]
  have hinv : invalidate cfg st id aS opts = (.rejected e, (createSession cfg st id aS opts).2) := by
    unfold invalidate
    rw [hc]
  rw [hrun, hget, hinv]
  exact ⟨⟨rfl, hf.1, hf.2.1, hf.2.2.1, hf.2.2.2.1⟩,
    ⟨rfl, hf.1, hf.2.1, hf.2.2.1, hf.2.2.2.1⟩,
    ⟨rfl, hf.1, hf.2.1, hf.2.2.1, hf.2.2.2.1⟩⟩

/-- Witness for C10: an unknown agent id. -/
theorem createSession_failure_inert_witness :
    (createSession sampleCfg baseState "nope" [] {}).1 =
      .error "Agent \"nope\" is invalid" ∧
    (run sampleCfg baseState "nope" [] {}).1 = .rejected "Agent \"nope\" is invalid" ∧
    (get sampleCfg baseState "nope" [] {}).1 = .rejected "Agent \"nope\" is invalid" ∧
    (invalidate sampleCfg baseState "nope" [] {}).1 =
      .rejected "Agent \"nope\" is invalid" ∧
    (run sampleCfg baseState "nope" [] {}).2.log = baseState.log := by
  have h := createSession_failure_inert sampleCfg baseState "nope" [] {}
    "Agent \"nope\" is invalid" rfl
  exact ⟨rfl, h.1.1, h.2.1.1, h.2.2.1, h.1.2.2.2.2⟩

/-! ### C5: method-incompatibility behaviour (code bug in promise mode) -/

/-- C5 (code bug): a `run` whose resolved runner is not among the agent's
`methods` never registers the session and never schedules a worker, and in
session mode the session comes back with `status = "error"`; but in
promise mode the source executes `return session.defer.reject`, so the
caller's promise is *fulfilled with the reject function* instead of being
rejected — the concrete evaluation below exhibits exactly that. -/
theorem run_incompatible_runner_behaviour :
    (run sampleCfg baseState "beta" [] {}).1 = .rejectFn 0 ∧
    (run sampleCfg baseState "beta" [] {}).2.running = [] ∧
    (run sampleCfg baseState "beta" [] {}).2.tasks = [] ∧
    (run sampleCfg baseState "beta" [] {}).2.log = [] ∧
    (run sampleCfg baseState "beta" [] { want := some "session" }).1 =
      .sessionObj { agent := "beta", agentSettings := [], cacheKey := "beta",
                    runner := "inline", cache := "memory", worker := pm2OnlyAgent,
                    deferId := 0, status := some "error", result := none } ∧
    (run sampleCfg baseState "beta" [] { want := some "session" }).2.running = [] ∧
    (run sampleCfg baseState "beta" [] { want := some "session" }).2.tasks = [] := by
  exact ⟨rfl, rfl, rfl, rfl, rfl, rfl, rfl⟩

/-! ### C2: `get` and the truthiness of cached values -/

/-- C2 counterexample: the cache holds the (falsy) value `false` for the
derived key, yet `get` does not resolve with the cached value — it starts
a run (scheduling the session), because the source tests `val ? val : …`
with JS truthiness rather than presence. -/
theorem get_falsy_cached_value_reruns :
    storeGet falsyCachedState "memory" "alpha" = some (.bool false) ∧
    (get sampleCfg falsyCachedState "alpha" [] {}).1 = .ran (.ownPromise 0) ∧
    (get sampleCfg falsyCachedState "alpha" [] {}).1 ≠ GetRes.value (.bool false) ∧
    (get sampleCfg falsyCachedState "alpha" [] {}).2.tasks = [alphaSession] := by
  refine ⟨rfl, rfl, ?_, rfl⟩
  intro hcontra
  have h1 : (get sampleCfg falsyCachedState "alpha" [] {}).1 = .ran (.ownPromise 0) := rfl
  rw [h1] at hcontra
  exact GetRes.noConfusion hcontra

/-- C2 (amended): `get` resolves with the cached value, without invoking
the worker, whenever the cache holds a *truthy* value for the derived
key; when the cache reports absence or a falsy value it delegates to
`run` (with default options, so a fresh compatible session is scheduled)
unless `opts.lazy`, in which case it resolves `undefined`; and
`invalidate` removes the cached value, so the next non-lazy `get`
re-invokes the worker. -/
theorem get_amended :
    (∀ (cfg : Config) (st : OrchState) (id : String) (aS : List (String × JsVal))
       (opts : Opts) (s : Session) (v : JsVal),
       (createSession cfg st id aS opts).1 = .ok s →
       storeGet st s.cache s.cacheKey = some v → truthy v = true →
       get cfg st id aS opts = (.value v,
         { (createSession cfg st id aS opts).2 with
           log := (createSession cfg st id aS opts).2.log ++
             [Eff.cacheRead s.cache s.cacheKey] })) ∧
    (∀ (cfg : Config) (st : OrchState) (id : String) (aS : List (String × JsVal))
       (opts : Opts) (s : Session),
       (createSession cfg st id aS opts).1 = .ok s →
       truthyOpt (storeGet st s.cache s.cacheKey) = false → opts.lazy = false →
       alookup s.cacheKey st.running = none →
       s.worker.methods.contains s.runner = true →
       get cfg st id aS opts = (.ran (.ownPromise s.deferId),
         scheduleRun
           { (createSession cfg st id aS opts).2 with
             log := (createSession cfg st id aS opts).2.log ++
               [Eff.cacheRead s.cache s.cacheKey] } s)) ∧
    (∀ (cfg : Config) (st : OrchState) (id : String) (aS : List (String × JsVal))
       (opts : Opts) (s : Session),
       (createSession cfg st id aS opts).1 = .ok s →
       truthyOpt (storeGet st s.cache s.cacheKey) = false → opts.lazy = true →
       get cfg st id aS opts = (.undef,
         { (createSession cfg st id aS opts).2 with
           log := (createSession cfg st id aS opts).2.log ++
             [Eff.cacheRead s.cache s.cacheKey] })) ∧
    (∀ (cfg : Config) (st : OrchState) (id : String) (aS : List (String × JsVal))
       (opts : Opts) (s : Session),
       (createSession cfg st id aS opts).1 = .ok s →
       storeGet (invalidate cfg st id aS opts).2 s.cache s.cacheKey = none) := by
  refine ⟨?_, ?_, ?_, ?_⟩
  · intro cfg st id aS opts s v hcs hv htr
    have hc : createSession cfg st id aS opts =
        (.ok s, (createSession cfg st id aS opts).2) := by rw [← hcs]
    have hf := createSession_fields cfg st id aS opts
    have hv' : storeGet (createSession cfg st id aS opts).2 s.cache s.cacheKey = some v := by
      unfold storeGet at hv ⊢
      rw [hf.2.2.1]
      exact hv
    unfold get
    rw [hc]
    simp only [hv', truthyOpt, htr, if_true, Option.getD]
  · intro cfg st id aS opts s hcs hv hlazy hrun hm
    have hc : createSession cfg st id aS opts =
        (.ok s, (createSession cfg st id aS opts).2) := by rw [← hcs]
    have hf := createSession_fields cfg st id aS opts
    have hv' : truthyOpt (storeGet (createSession cfg st id aS opts).2 s.cache s.cacheKey)
        = false := by
      unfold storeGet at hv ⊢
      rw [hf.2.2.1]
      exact hv
    have hrc := @runCore_fresh_promise
      { (createSession cfg st id aS opts).2 with
        log := (createSession cfg st id aS opts).2.log ++
          [Eff.cacheRead s.cache s.cacheKey] } s {}
      (by simpa [hf.1] using hrun) hm rfl
    unfold get
    rw [hc]
    simp only [hv', Bool.false_eq_true, if_false, hlazy, Bool.not_false, if_true, hrc]
  · intro cfg st id aS opts s hcs hv hlazy
    have hc : createSession cfg st id aS opts =
        (.ok s, (createSession cfg st id aS opts).2) := by rw [← hcs]
    have hf := createSession_fields cfg st id aS opts
    have hv' : truthyOpt (storeGet (createSession cfg st id aS opts).2 s.cache s.cacheKey)
        = false := by
      unfold storeGet at hv ⊢
      rw [hf.2.2.1]
      exact hv
    unfold get
    rw [hc]
    simp only [hv', Bool.false_eq_true, if_false, hlazy, Bool.not_true]
  · intro cfg st id aS opts s hcs
    have hc : createSession cfg st id aS opts =
        (.ok s, (createSession cfg st id aS opts).2) := by rw [← hcs]
    unfold invalidate
    rw [hc]
    exact alookup_filter_self (s.cache, s.cacheKey) _

/-- Witness for C2 (amended) on concrete states: truthy hit, miss,
lazy miss, and invalidation. -/
theorem get_amended_witness :
    (get sampleCfg truthyCachedState "alpha" [] {}).1 = .value (.num 7) ∧
    (get sampleCfg baseState "alpha" [] {}).1 = .ran (.ownPromise 0) ∧
    (get sampleCfg baseState "alpha" [] { lazy := true }).1 = .undef ∧
    storeGet (invalidate sampleCfg truthyCachedState "alpha" [] {}).2 "memory" "alpha" = none := by
  refine ⟨?_, ?_, ?_, ?_⟩
  · have h := get_amended.1 sampleCfg truthyCachedState "alpha" [] {} alphaSession
      (.num 7) rfl rfl rfl
    rw [h]
  · have h := get_amended.2.1 sampleCfg baseState "alpha" [] {} alphaSession
      rfl rfl rfl rfl rfl
    rw [h]
    exact rfl
  · have h := get_amended.2.2.1 sampleCfg baseState "alpha" [] { lazy := true } alphaSession
      rfl rfl rfl
    rw [h]
  · exact get_amended.2.2.2 sampleCfg truthyCachedState "alpha" [] {} alphaSession rfl

/-! ### C8: `getSession` status inference (code bug for non-object values) -/

/-- C8 (code bug): `getSession` infers `pending` while the key is in
flight and `error` for an `{error: …}`-shaped value or an empty cache, as
the claim says; but a *present non-object* value (here the number 42)
yields `status = "error"` even though a value is present — the
`_.isObject` guard of the source makes the claimed `complete` branch
unreachable for non-object results. -/
theorem getSession_status_eval :
    (getSession numberCachedState (.byKey "foo")).status = "error" ∧
    (getSession numberCachedState (.byKey "foo")).result = some (.num 42) ∧
    (getSession numberCachedRunningState (.byKey "foo")).status = "pending" ∧
    (getSession errorCachedState (.byKey "bar")).status = "error" ∧
    (getSession errorCachedState (.byKey "bar")).error = some (.str "boom") ∧
    (getSession errorCachedState (.bySession { inflightSession with cacheKey := "bar" })).status
      = "error" ∧
    (getSession baseState (.byKey "foo")).status = "error" ∧
    (getSession { baseState with
        store := [(("memory", "obj"), .obj [("a", .num 1)])] } (.byKey "obj")).status
      = "complete" := by
  exact ⟨rfl, rfl, rfl, rfl, rfl, rfl, rfl, rfl⟩

/-! ### C6: inline runner behaviour -/

/-- C6 counterexample: a continuation-reported error is passed to
`reject` unchanged — for an object cause the rejection payload is not a
string, so "rejects with a stringified cause" fails as stated. -/
theorem inlineExec_nonstring_cause :
    inlineExec (fun _ => none) 0 alphaSession (.finishes (some (.obj [])) .null) =
      [.rejectEv (.obj [])] ∧
    ∀ s : String, JsVal.obj [] ≠ JsVal.str s :=
  ⟨rfl, fun _ h => JsVal.noConfusion h⟩

/-- C6 (amended): on worker success with `hasReturn` and a parseable
non-empty `expires` string, the inline runner writes the value with the
`timestring`-derived expiry instant and resolves with the value only
after the write (the write event precedes the resolve event in the
trace); on success with `hasReturn` and no expiry it writes without
expiry and then resolves; with `hasReturn = false` it resolves
`undefined` without any cache write; on failure the cache is not
updated and the promise rejects — with the thrown error's `.message`
string for synchronous throws, and with the continuation's error value
unchanged otherwise. -/
theorem inlineExec_behaviour :
    (∀ (ts : String → Option Nat) (now : Int) (s : Session) (e : String) (v : JsVal) (n : Nat),
       s.worker.hasReturn = true → s.worker.expires = some e → e ≠ "" → ts e = some n →
       inlineExec ts now s (.finishes none v) =
         [.cacheSet s.cacheKey v (some (now + n * 1000)), .resolveEv (some v)]) ∧
    (∀ (ts : String → Option Nat) (now : Int) (s : Session) (v : JsVal),
       s.worker.hasReturn = true → s.worker.expires = none →
       inlineExec ts now s (.finishes none v) =
         [.cacheSet s.cacheKey v none, .resolveEv (some v)]) ∧
    (∀ (ts : String → Option Nat) (now : Int) (s : Session) (v : JsVal),
       s.worker.hasReturn = false →
       inlineExec ts now s (.finishes none v) = [.resolveEv none]) ∧
    (∀ (ts : String → Option Nat) (now : Int) (s : Session) (e : JsVal) (v : JsVal),
       inlineExec ts now s (.finishes (some e) v) = [.rejectEv e]) ∧
    (∀ (ts : String → Option Nat) (now : Int) (s : Session) (msg : String),
       inlineExec ts now s (.throws msg) = [.rejectEv (.str msg)]) := by
  refine ⟨?_, ?_, ?_, fun _ _ _ _ _ => rfl, fun _ _ _ _ => rfl⟩
  · intro ts now s e v n hr he hne hts
    have hexp : expiresNonempty (some e) = true := by
      simpa [expiresNonempty] using hne
    simp [inlineExec, hr, he, hexp, hts]
  · intro ts now s v hr he
    have hexp : expiresNonempty s.worker.expires = false := by
      rw [he]
      rfl
    simp [inlineExec, hr, hexp]
  · intro ts now s v hr
    simp [inlineExec, hr]

/-- Witness for C6 (amended) at concrete inputs. -/
theorem inlineExec_behaviour_witness :
    inlineExec (fun e => if e == "1h" then some 3600 else none) 1000
      { alphaSession with worker := { sampleAgent with expires := some "1h" } }
      (.finishes none (.num 9)) =
      [.cacheSet "alpha" (.num 9) (some 3601000), .resolveEv (some (.num 9))] ∧
    inlineExec (fun _ => none) 0 alphaSession (.finishes none (.num 9)) =
      [.cacheSet "alpha" (.num 9) none, .resolveEv (some (.num 9))] ∧
    inlineExec (fun _ => none) 0
      { alphaSession with worker := { sampleAgent with hasReturn := false } }
      (.finishes none (.num 9)) = [.resolveEv none] ∧
    inlineExec (fun _ => none) 0 alphaSession (.throws "boom") = [.rejectEv (.str "boom")] := by
  refine ⟨?_, ?_, ?_, ?_⟩
  · have h := inlineExec_behaviour.1 (fun e => if e == "1h" then some 3600 else none) 1000
      { alphaSession with worker := { sampleAgent with expires := some "1h" } }
      "1h" (.num 9) 3600 rfl rfl (by decide) rfl
    rw [h]
    rfl
  · exact inlineExec_behaviour.2.1 (fun _ => none) 0 alphaSession (.num 9) rfl rfl
  · exact inlineExec_behaviour.2.2.1 (fun _ => none) 0
      { alphaSession with worker := { sampleAgent with hasReturn := false } } (.num 9) rfl
  · exact inlineExec_behaviour.2.2.2.2 (fun _ => none) 0 alphaSession "boom"

/-! ### C7: the supervised runner's post-mortem classification -/

/-- C7: once the post-mortem engages (exit code 0 with log scanning
enabled, tail size defaulting to 2048), the events parsed from the last
five lines of the log tail and filtered to this run (a *processKill*
matching the child's pid at or after the start instant, a *processSignal*
matching the process name at or after the start instant, any *pmKill*)
decide the outcome in priority order: any processKill fails the run with
the killed-by-supervisor error; else the first processSignal fails with a
message containing the signal and the exit code; else any pmKill fails
with the supervisor-dead error; otherwise — unparseable lines included —
the run succeeds. -/
theorem postMortem_classification :
    (∀ (pd : List Char → Option Int) (ts : Nat) (f : List Char) (pid : Nat)
       (name : String) (t0 : Int),
      ((relevantEvents pd ts f pid name t0).any isProcessKill = true →
        postMortem pd ts f pid name t0 = some "Process killed by PM2") ∧
      ((relevantEvents pd ts f pid name t0).any isProcessKill = false →
        ∀ ev, (relevantEvents pd ts f pid name t0).find? isProcessSignal = some ev →
          postMortem pd ts f pid name t0 = some (signalMessage ev)) ∧
      ((relevantEvents pd ts f pid name t0).any isProcessKill = false →
        (relevantEvents pd ts f pid name t0).find? isProcessSignal = none →
        (relevantEvents pd ts f pid name t0).any isPm2Kill = true →
        postMortem pd ts f pid name t0 = some "PM2 God is dead") ∧
      ((relevantEvents pd ts f pid name t0).any isProcessKill = false →
        (relevantEvents pd ts f pid name t0).find? isProcessSignal = none →
        (relevantEvents pd ts f pid name t0).any isPm2Kill = false →
        postMortem pd ts f pid name t0 = none)) ∧
    (∀ (d : Option Int) (name : String) (inst code : Nat) (sig : String),
       signalMessage (.processSignal d name inst code sig) =
         "Proceess killed by system (" ++ sig ++ " exit code " ++ toString code ++ ")") ∧
    defaultPm2Settings.logFileTailSize = 2048 ∧
    (∀ (pm : Pm2Settings) (pd : List Char → Option Int) (f : List Char) (pid : Nat)
       (name : String) (t0 : Int),
       pm.logFileScan = true →
       stoppedCase pm pd f 0 "" pid name t0 =
         postMortem pd pm.logFileTailSize f pid name t0) ∧
    (∀ (pm : Pm2Settings) (pd : List Char → Option Int) (f : List Char) (logPath : String)
       (pid : Nat) (name : String) (t0 : Int),
       pm.logFileScan = false →
       stoppedCase pm pd f 0 logPath pid name t0 = none) := by
  refine ⟨?_, fun _ _ _ _ _ => rfl, rfl, ?_, ?_⟩
  · intro pd ts f pid name t0
    refine ⟨?_, ?_, ?_, ?_⟩
    · intro hk
      simp [postMortem, postMortemDecision, hk]
    · intro hk ev hs
      simp [postMortem, postMortemDecision, hk, hs]
    · intro hk hs hp
      simp [postMortem, postMortemDecision, hk, hs, hp]
    · intro hk hs hp
      simp [postMortem, postMortemDecision, hk, hs, hp]
  · intro pm pd f pid name t0 hscan
    simp [stoppedCase, hscan]
  · intro pm pd f logPath pid name t0 hscan
    simp [stoppedCase, hscan]

/-- Witness for C7: synthetic log tails exercising the three patterns
and the none-of-the-above success, plus the engagement via the
`stopping/stopped` branch. -/
theorem postMortem_classification_witness :
    (relevantEvents pdW 2048 killLog.toList 42 "agent-alpha" 50).any isProcessKill = true ∧
    postMortem pdW 2048 killLog.toList 42 "agent-alpha" 50 = some "Process killed by PM2" ∧
    postMortem pdW 2048 sigLog.toList 42 "agent-alpha" 50 =
      some "Proceess killed by system (SIGTERM exit code 0)" ∧
    postMortem pdW 2048 deadLog.toList 42 "agent-alpha" 50 = some "PM2 God is dead" ∧
    postMortem pdW 2048 noneLog.toList 42 "agent-alpha" 50 = none ∧
    stoppedCase defaultPm2Settings pdW killLog.toList 0 "" 42 "agent-alpha" 50 =
      some "Process killed by PM2" := by
  have hk := ((postMortem_classification.1 pdW 2048 killLog.toList 42 "agent-alpha" 50).1) rfl
  have hsig := ((postMortem_classification.1 pdW 2048 sigLog.toList 42 "agent-alpha" 50).2.1)
    rfl (.processSignal (some 100) "agent-alpha" 0 0 "SIGTERM") rfl
  have hdead := ((postMortem_classification.1 pdW 2048 deadLog.toList 42 "agent-alpha" 50).2.2.1)
    rfl rfl rfl
  have hnone := ((postMortem_classification.1 pdW 2048 noneLog.toList 42 "agent-alpha" 50).2.2.2)
    rfl rfl rfl
  have hstop := postMortem_classification.2.2.2.1 defaultPm2Settings pdW killLog.toList
    42 "agent-alpha" 50 rfl
  exact ⟨rfl, hk, by rw [hsig]; rfl, hdead, hnone, by rw [hstop]; exact hk⟩

end AgentsModel
